import Mathlib

/-!
# Password visibility toggle (`static/js/main.js`)

A shallow embedding of the script's DOM fragment and of its two routines:
the per-click function `togglePasswordVisibility` and the `DOMContentLoaded`
handler that binds the click listeners.

The rendered document is a finite tree of elements.  An element is referred to
by its path from the root element (the list of child indices), which plays the
part of the JavaScript object reference: mutating an element changes the data
stored at its path and nothing else.
-/

namespace PasswordToggle

/-- Reference to an element: the child indices leading to it from the root. -/
abbrev Path := List Nat

/-- Data carried by one element: its tag name, the value of its `type`
property, the tokens of its `classList`, and its remaining attributes. -/
structure Node where
  tagName : String
  type : String
  classList : List String
  attributes : List (String × String)
  deriving DecidableEq, Repr

/-- Element tree: a node with its child elements in document order. -/
inductive Element where
  | mk (node : Node) (children : List Element)

namespace Element

/-- Node data of an element. -/
def node : Element → Node
  | mk n _ => n

/-- Child elements of an element. -/
def children : Element → List Element
  | mk _ cs => cs

/-- Element reached from `e` along a path, if there is one. -/
def get? : Element → Path → Option Element
  | e, [] => some e
  | e, i :: p =>
    match e.children[i]? with
    | some c => get? c p
    | none => none

/-- Replace the node data of the element at a path by `f` of it; the tree
shape and every other element stay as they are. -/
def modifyAt (f : Node → Node) : Path → Element → Element
  | [], e => mk (f e.node) e.children
  | i :: p, e => mk e.node (e.children.modify (modifyAt f p) i)

mutual
/-- Paths, relative to `e`, of the proper descendants of `e` in tree order. -/
def descendants : Element → List Path
  | mk _ cs => descendantsFrom cs 0
/-- Paths of the elements of the forest `cs`, whose first tree is child number `i`. -/
def descendantsFrom : List Element → Nat → List Path
  | [], _ => []
  | c :: cs, i => ([i] :: (descendants c).map (List.cons i)) ++ descendantsFrom cs (i + 1)
end

end Element

/-- Node data of the element at a path of the document. -/
def nodeAt (doc : Element) (p : Path) : Option Node :=
  (doc.get? p).map Element.node

/-- The selectors the script uses: a class selector `.c` or a type selector `t`. -/
inductive Selector where
  | cls (c : String)
  | tag (t : String)

/-- Whether a node matches a selector. -/
def Selector.matches : Selector → Node → Bool
  | .cls c, n => decide (c ∈ n.classList)
  | .tag t, n => decide (n.tagName = t)

/-- Whether the element at path `p` exists and matches the selector. -/
def matchesAt (doc : Element) (sel : Selector) (p : Path) : Bool :=
  match nodeAt doc p with
  | some n => sel.matches n
  | none => false

/-- The element and its ancestors, nearest first. -/
def inclusiveAncestors (p : Path) : List Path :=
  p.inits.reverse

/-- The call `el.closest(sel)`: the nearest inclusive ancestor matching the selector. -/
def closest (doc : Element) (el : Path) (sel : Selector) : Option Path :=
  (inclusiveAncestors el).find? (matchesAt doc sel)

/-- The call `el.querySelectorAll(sel)`: the proper descendants of `el` matching the
selector, in tree order. -/
def querySelectorAll (doc : Element) (el : Path) (sel : Selector) : List Path :=
  match doc.get? el with
  | some e => ((e.descendants).map (fun r => el ++ r)).filter (matchesAt doc sel)
  | none => []

/-- The call `el.querySelector(sel)`: the first proper descendant of `el` matching the selector. -/
def querySelector (doc : Element) (el : Path) (sel : Selector) : Option Path :=
  (querySelectorAll doc el sel).head?

/-- The call `document.querySelectorAll(sel)`: every element of the document matching
the selector (the root element included), in tree order. -/
def documentQuerySelectorAll (doc : Element) (sel : Selector) : List Path :=
  (([] : Path) :: doc.descendants).filter (matchesAt doc sel)

/-- Token set after `remove(token)`: every occurrence of the token is dropped. -/
def tokensRemove (token : String) (l : List String) : List String :=
  l.filter (fun c => decide (c ≠ token))

/-- Token set after `add(token)`: the token is appended unless already present. -/
def tokensAdd (token : String) (l : List String) : List String :=
  if token ∈ l then l else l ++ [token]

/-- The call `classList.remove(token)` on an element. -/
def classListRemove (token : String) (n : Node) : Node :=
  { n with classList := tokensRemove token n.classList }

/-- The call `classList.add(token)` on an element. -/
def classListAdd (token : String) (n : Node) : Node :=
  { n with classList := tokensAdd token n.classList }

/-- Assignment `el.type = value`. -/
def setType (value : String) (n : Node) : Node :=
  { n with type := value }

/-- How a call ends: it returns, or an exception propagates to the caller. -/
inductive Completion where
  | returned
  | threw (error : String)
  deriving DecidableEq, Repr

/-- Observable page state: the document, the `console.error` messages so far,
and the elements a click listener has been added to (one entry per listener). -/
structure Page where
  document : Element
  console : List String
  listeners : List Path

/-- The call `console.error(msg)`. -/
def consoleError (s : Page) (msg : String) : Page :=
  { s with console := s.console ++ [msg] }

/-- The exception raised by `icon.classList` when `icon` is `null`. -/
def nullClassListError : String :=
  "TypeError: Cannot read properties of null (reading 'classList')"

/-- The function `togglePasswordVisibility(button)`. -/
def togglePasswordVisibility (s : Page) (button : Path) : Page × Completion :=
  match closest s.document button (.cls "input-group") with
  | none =>
    (consoleError s "Password toggle button is not inside an .input-group", .returned)
  | some inputGroup =>
    match querySelector s.document inputGroup (.tag "input") with
    | none =>
      (consoleError s "No input field found inside the .input-group", .returned)
    | some input =>
      let icon := querySelector s.document button (.tag "i")
      if (nodeAt s.document input).map Node.type = some "password" then
        let d1 := s.document.modifyAt (setType "text") input
        match icon with
        | none => ({ s with document := d1 }, .threw nullClassListError)
        | some icon =>
          let d2 := d1.modifyAt (classListRemove "fa-eye-slash") icon
          let d3 := d2.modifyAt (classListAdd "fa-eye") icon
          ({ s with document := d3 }, .returned)
      else
        let d1 := s.document.modifyAt (setType "password") input
        match icon with
        | none => ({ s with document := d1 }, .threw nullClassListError)
        | some icon =>
          let d2 := d1.modifyAt (classListRemove "fa-eye") icon
          let d3 := d2.modifyAt (classListAdd "fa-eye-slash") icon
          ({ s with document := d3 }, .returned)

/-- The `DOMContentLoaded` handler: one `addEventListener('click', ...)` call
per element of `document.querySelectorAll('.js-password-toggle')`. -/
def onDOMContentLoaded (s : Page) : Page × Completion :=
  let toggleButtons := documentQuerySelectorAll s.document (.cls "js-password-toggle")
  (toggleButtons.foldl (fun st button => { st with listeners := st.listeners ++ [button] }) s,
    .returned)

/-- The Field of a trigger: the first `input` inside the nearest enclosing
`.input-group`, as resolved by the first two lookups of the function. -/
def fieldOf (doc : Element) (button : Path) : Option Path :=
  (closest doc button (.cls "input-group")).bind (fun g => querySelector doc g (.tag "input"))

/-- The Indicator of a trigger: the first `i` element inside it. -/
def indicatorOf (doc : Element) (button : Path) : Option Path :=
  querySelector doc button (.tag "i")

/-- Value of the `type` property of the element at a path. -/
def typeAt (doc : Element) (p : Path) : Option String :=
  (nodeAt doc p).map Node.type

/-- Tokens of the `classList` of the element at a path. -/
def classListAt (doc : Element) (p : Path) : Option (List String) :=
  (nodeAt doc p).map Node.classList

/-- Whether the element at a path bears the class `c`. -/
def hasClass (doc : Element) (p : Path) (c : String) : Bool :=
  matchesAt doc (.cls c) p

/-- The document after the three writes of one branch of the function. -/
def written (doc : Element) (input icon : Path) (newType removed added : String) : Element :=
  ((doc.modifyAt (setType newType) input).modifyAt (classListRemove removed) icon).modifyAt
    (classListAdd added) icon

mutual
/-- Number of elements of the tree `e`, the root included, that match a selector. -/
def Element.countMatching (sel : Selector) : Element → Nat
  | .mk n cs => (if sel.matches n then 1 else 0) + Element.countMatchingFrom sel cs
/-- Number of elements of the forest `cs` that match a selector. -/
def Element.countMatchingFrom (sel : Selector) : List Element → Nat
  | [] => 0
  | c :: cs => Element.countMatching sel c + Element.countMatchingFrom sel cs
end

/-- Page left by the click listener `function () { togglePasswordVisibility(this); }`
run on a button; an exception of the call is reported by the host and the
page stays as the call left it. -/
def click (s : Page) (button : Path) : Page :=
  (togglePasswordVisibility s button).1

/-- Field mode and Indicator class agree: type `password` with `fa-eye-slash`
and without `fa-eye`, or type `text` with `fa-eye` and without `fa-eye-slash`. -/
def Consistent (doc : Element) (input icon : Path) : Prop :=
  (typeAt doc input = some "password" ∧ hasClass doc icon "fa-eye-slash" = true ∧
      hasClass doc icon "fa-eye" = false) ∨
  (typeAt doc input = some "text" ∧ hasClass doc icon "fa-eye" = true ∧
      hasClass doc icon "fa-eye-slash" = false)

/-- Example page: a group holding an input and a button with an icon. -/
def samplePage : Page :=
  { document :=
      .mk ⟨"div", "", ["input-group"], []⟩
        [ .mk ⟨"input", "password", ["form-control"], [("name", "password")]⟩ [],
          .mk ⟨"button", "button", ["btn", "js-password-toggle"], []⟩
            [ .mk ⟨"i", "", ["fa-eye-slash"], []⟩ [] ] ],
    console := [],
    listeners := [] }

/-- Page whose Indicator starts with `fa-eye` although the Field is obscured. -/
def mismatchedPage : Page :=
  { document :=
      .mk ⟨"div", "", ["input-group"], []⟩
        [ .mk ⟨"input", "password", ["form-control"], []⟩ [],
          .mk ⟨"button", "button", ["js-password-toggle"], []⟩
            [ .mk ⟨"i", "", ["fas", "fa-eye"], []⟩ [] ] ],
    console := [],
    listeners := [] }

/-- Page whose Field has type `email` and whose Indicator bears both classes. -/
def emailPage : Page :=
  { document :=
      .mk ⟨"div", "", ["input-group"], []⟩
        [ .mk ⟨"input", "email", [], []⟩ [],
          .mk ⟨"button", "button", ["js-password-toggle"], []⟩
            [ .mk ⟨"i", "", ["fa-eye", "fas", "fa-eye-slash"], []⟩ [] ] ],
    console := [],
    listeners := [] }

/-- Page whose button is not inside any `.input-group`. -/
def noGroupPage : Page :=
  { document :=
      .mk ⟨"div", "", ["form-row"], []⟩
        [ .mk ⟨"input", "password", [], []⟩ [],
          .mk ⟨"button", "button", ["js-password-toggle"], []⟩
            [ .mk ⟨"i", "", ["fa-eye-slash"], []⟩ [] ] ],
    console := [],
    listeners := [] }

/-- Page whose button holds a text label and no `i` element. -/
def noIconPage : Page :=
  { document :=
      .mk ⟨"div", "", ["input-group"], []⟩
        [ .mk ⟨"input", "password", ["form-control"], []⟩ [],
          .mk ⟨"button", "button", ["js-password-toggle"], []⟩
            [ .mk ⟨"span", "", [], []⟩ [] ] ],
    console := [],
    listeners := [] }

/-- Page with one `.input-group` holding one input and two buttons. -/
def sharedGroupPage : Page :=
  { document :=
      .mk ⟨"div", "", ["input-group"], []⟩
        [ .mk ⟨"input", "password", ["form-control"], []⟩ [],
          .mk ⟨"button", "button", ["js-password-toggle"], []⟩
            [ .mk ⟨"i", "", ["fa-eye-slash"], []⟩ [] ],
          .mk ⟨"button", "button", ["js-password-toggle"], []⟩
            [ .mk ⟨"i", "", ["fa-eye-slash"], []⟩ [] ] ],
    console := [],
    listeners := [] }

/-- Page with two groups, each holding its own input, button and icon. -/
def twoGroupsPage : Page :=
  { document :=
      .mk ⟨"form", "", [], []⟩
        [ .mk ⟨"div", "", ["input-group"], []⟩
            [ .mk ⟨"input", "password", [], []⟩ [],
              .mk ⟨"button", "button", ["js-password-toggle"], []⟩
                [ .mk ⟨"i", "", ["fa-eye-slash"], []⟩ [] ] ],
          .mk ⟨"div", "", ["input-group"], []⟩
            [ .mk ⟨"input", "password", [], []⟩ [],
              .mk ⟨"button", "button", ["js-password-toggle"], []⟩
                [ .mk ⟨"i", "", ["fa-eye-slash"], []⟩ [] ] ] ],
    console := [],
    listeners := [] }


/-! ## Reading a document after a mutation -/

@[simp] theorem Element.node_mk (n : Node) (cs : List Element) : (Element.mk n cs).node = n := rfl

@[simp] theorem Element.children_mk (n : Node) (cs : List Element) :
    (Element.mk n cs).children = cs := rfl

theorem Element.get?_nil (e : Element) : e.get? [] = some e := by
  cases e; rfl

theorem Element.get?_cons (e : Element) (i : Nat) (p : Path) :
    e.get? (i :: p) = (e.children[i]?).bind (fun c => c.get? p) := by
  cases h : e.children[i]? <;> simp [Element.get?, h]

theorem Element.node_modifyAt (f : Node → Node) (p : Path) (e : Element) :
    (e.modifyAt f p).node = if p = [] then f e.node else e.node := by
  cases p <;> simp [Element.modifyAt]

theorem Element.descendantsFrom_modify (g : Element → Element)
    (hg : ∀ c, (g c).descendants = c.descendants) :
    ∀ (cs : List Element) (i k : Nat),
      Element.descendantsFrom (cs.modify g i) k = Element.descendantsFrom cs k
  | [], i, k => by simp
  | c :: cs, 0, k => by simp [Element.descendantsFrom, hg]
  | c :: cs, i + 1, k => by
    rw [List.modify_succ_cons]
    simp only [Element.descendantsFrom]
    rw [Element.descendantsFrom_modify g hg cs i (k + 1)]

theorem Element.descendants_modifyAt (f : Node → Node) :
    ∀ (p : Path) (e : Element), (e.modifyAt f p).descendants = e.descendants
  | [], .mk n cs => by simp [Element.modifyAt, Element.descendants]
  | i :: p, .mk n cs => by
    simp only [Element.modifyAt, Element.descendants, Element.children_mk]
    exact Element.descendantsFrom_modify _ (Element.descendants_modifyAt f p) cs i 0

/-- Reading along `q` after a mutation at `p`: the subtree read is the old one,
mutated at the rest of `p` when `q` lies on the way to `p`. -/
theorem Element.get?_modifyAt (f : Node → Node) :
    ∀ (p : Path) (e : Element) (q : Path),
      (e.modifyAt f p).get? q =
        if q <+: p then (e.get? q).map (Element.modifyAt f (p.drop q.length)) else e.get? q
  | p, e, [] => by simp [Element.get?_nil]
  | [], e, j :: q => by
    simp [Element.get?_cons, Element.modifyAt]
  | i :: p, .mk n cs, j :: q => by
    rw [Element.get?_cons, Element.get?_cons]
    simp only [Element.modifyAt, Element.children_mk, List.getElem?_modify, List.cons_prefix_cons,
      List.length_cons, List.drop_succ_cons]
    by_cases hij : i = j
    · subst hij
      cases hc : cs[i]? with
      | none => simp
      | some c =>
        simp only [Option.map_eq_map, Option.map_some', if_true, Option.some_bind, true_and]
        rw [Element.get?_modifyAt f p c q]
    · have hji : ¬ j = i := fun h => hij h.symm
      cases hc : cs[j]? <;> simp [hij, hji]

theorem nodeAt_modifyAt (f : Node → Node) (doc : Element) (p q : Path) :
    nodeAt (doc.modifyAt f p) q = if q = p then (nodeAt doc q).map f else nodeAt doc q := by
  unfold nodeAt
  rw [Element.get?_modifyAt]
  by_cases hpre : q <+: p
  · by_cases hqp : q = p
    · subst hqp
      cases h : doc.get? q <;> simp [Element.node_modifyAt]
    · have hne : List.drop q.length p ≠ [] := by
        intro h
        apply hqp
        obtain ⟨t, rfl⟩ := hpre
        simpa using h
      cases h : doc.get? q <;> simp [hpre, hqp, Element.node_modifyAt, hne]
  · have hqp : q ≠ p := by
      rintro rfl
      exact hpre (List.prefix_refl _)
    simp [hpre, hqp]

theorem descendants_get?_modifyAt (f : Node → Node) (doc : Element) (p q : Path) :
    ((doc.modifyAt f p).get? q).map Element.descendants = (doc.get? q).map Element.descendants := by
  rw [Element.get?_modifyAt]
  by_cases hpre : q <+: p
  · cases h : doc.get? q <;> simp [hpre, Element.descendants_modifyAt]
  · simp [hpre]

/-! ## Lookups are not affected by the writes of the function -/

theorem matchesAt_modifyAt (sel : Selector) (f : Node → Node)
    (hf : ∀ n, sel.matches (f n) = sel.matches n) (doc : Element) (p q : Path) :
    matchesAt (doc.modifyAt f p) sel q = matchesAt doc sel q := by
  unfold matchesAt
  rw [nodeAt_modifyAt]
  by_cases hqp : q = p
  · cases h : nodeAt doc q <;> simp [hqp, h, hf]
  · simp [hqp]

theorem closest_modifyAt (sel : Selector) (f : Node → Node)
    (hf : ∀ n, sel.matches (f n) = sel.matches n) (doc : Element) (p el : Path) :
    closest (doc.modifyAt f p) el sel = closest doc el sel := by
  unfold closest
  congr 1
  funext q
  exact matchesAt_modifyAt sel f hf doc p q

theorem querySelectorAll_modifyAt (sel : Selector) (f : Node → Node)
    (hf : ∀ n, sel.matches (f n) = sel.matches n) (doc : Element) (p el : Path) :
    querySelectorAll (doc.modifyAt f p) el sel = querySelectorAll doc el sel := by
  have hd := descendants_get?_modifyAt f doc p el
  have hm : matchesAt (doc.modifyAt f p) sel = matchesAt doc sel :=
    funext (matchesAt_modifyAt sel f hf doc p)
  unfold querySelectorAll
  rw [hm]
  cases h1 : (doc.modifyAt f p).get? el <;> cases h2 : doc.get? el <;>
    simp_all

theorem querySelector_modifyAt (sel : Selector) (f : Node → Node)
    (hf : ∀ n, sel.matches (f n) = sel.matches n) (doc : Element) (p el : Path) :
    querySelector (doc.modifyAt f p) el sel = querySelector doc el sel := by
  unfold querySelector
  rw [querySelectorAll_modifyAt sel f hf]

theorem matches_tag_setType (t v : String) (n : Node) :
    (Selector.tag t).matches (setType v n) = (Selector.tag t).matches n := rfl

theorem matches_cls_setType (c v : String) (n : Node) :
    (Selector.cls c).matches (setType v n) = (Selector.cls c).matches n := rfl

theorem matches_tag_classListRemove (t tok : String) (n : Node) :
    (Selector.tag t).matches (classListRemove tok n) = (Selector.tag t).matches n := rfl

theorem matches_tag_classListAdd (t tok : String) (n : Node) :
    (Selector.tag t).matches (classListAdd tok n) = (Selector.tag t).matches n := rfl

theorem matches_cls_classListRemove (c tok : String) (n : Node) :
    (Selector.cls c).matches (classListRemove tok n) =
      (decide (c ≠ tok) && (Selector.cls c).matches n) := by
  by_cases h : c = tok <;> by_cases h2 : c ∈ n.classList <;>
    simp [Selector.matches, classListRemove, tokensRemove, h, h2]

theorem matches_cls_classListAdd (c tok : String) (n : Node) :
    (Selector.cls c).matches (classListAdd tok n) =
      (decide (c = tok) || (Selector.cls c).matches n) := by
  by_cases h2 : tok ∈ n.classList <;> by_cases h : c = tok <;>
    simp [Selector.matches, classListAdd, tokensAdd, h, h2]

/-! ## The function, case by case -/

theorem toggle_of_unresolved (s : Page) (button : Path)
    (h : fieldOf s.document button = none) :
    ∃ msg, togglePasswordVisibility s button = (consoleError s msg, Completion.returned) := by
  unfold fieldOf at h
  unfold togglePasswordVisibility
  cases hg : closest s.document button (.cls "input-group") with
  | none => exact ⟨_, rfl⟩
  | some g =>
    rw [hg] at h
    simp only [Option.some_bind] at h
    simp only [h]
    exact ⟨_, rfl⟩

theorem toggle_of_resolved (s : Page) (button input icon : Path)
    (hf : fieldOf s.document button = some input)
    (hi : indicatorOf s.document button = some icon) :
    togglePasswordVisibility s button =
      ({ s with document :=
          if typeAt s.document input = some "password"
          then written s.document input icon "text" "fa-eye-slash" "fa-eye"
          else written s.document input icon "password" "fa-eye" "fa-eye-slash" },
        Completion.returned) := by
  unfold fieldOf at hf
  unfold indicatorOf at hi
  unfold togglePasswordVisibility
  cases hg : closest s.document button (.cls "input-group") with
  | none => simp [hg] at hf
  | some g =>
    rw [hg] at hf
    simp only [Option.some_bind] at hf
    simp only [hf, hi, typeAt, written]
    split <;> rfl

theorem toggle_of_no_icon (s : Page) (button input : Path)
    (hf : fieldOf s.document button = some input)
    (hi : indicatorOf s.document button = none) :
    togglePasswordVisibility s button =
      ({ s with
          document :=
            s.document.modifyAt
              (setType (if typeAt s.document input = some "password" then "text" else "password"))
              input },
        Completion.threw nullClassListError) := by
  unfold fieldOf at hf
  unfold indicatorOf at hi
  unfold togglePasswordVisibility
  cases hg : closest s.document button (.cls "input-group") with
  | none => simp [hg] at hf
  | some g =>
    rw [hg] at hf
    simp only [Option.some_bind] at hf
    simp only [hf, hi, typeAt]
    split <;> rfl

/-- Node data anywhere in the document after the three writes of a branch. -/
theorem nodeAt_written (doc : Element) (input icon q : Path) (t r a : String) :
    nodeAt (written doc input icon t r a) q =
      (nodeAt doc q).map (fun n =>
        let n1 := if q = input then setType t n else n
        if q = icon then classListAdd a (classListRemove r n1) else n1) := by
  unfold written
  rw [nodeAt_modifyAt, nodeAt_modifyAt, nodeAt_modifyAt]
  by_cases h1 : q = icon
  · subst h1
    by_cases h2 : q = input
    · subst h2
      cases h : nodeAt doc q <;> simp
    · cases h : nodeAt doc q <;> simp [h2]
  · by_cases h2 : q = input
    · subst h2
      cases h : nodeAt doc q <;> simp [h1]
    · cases h : nodeAt doc q <;> simp [h1, h2]

theorem closest_group_written (doc : Element) (input icon el : Path) (t r a : String)
    (hr : "input-group" ≠ r) (ha : "input-group" ≠ a) :
    closest (written doc input icon t r a) el (.cls "input-group") =
      closest doc el (.cls "input-group") := by
  unfold written
  rw [closest_modifyAt, closest_modifyAt, closest_modifyAt]
  · exact matches_cls_setType _ _
  · intro n; rw [matches_cls_classListRemove]; simp [hr]
  · intro n; rw [matches_cls_classListAdd]; simp [ha]

theorem querySelector_tag_written (doc : Element) (input icon el : Path) (t r a tg : String) :
    querySelector (written doc input icon t r a) el (.tag tg) =
      querySelector doc el (.tag tg) := by
  unfold written
  rw [querySelector_modifyAt, querySelector_modifyAt, querySelector_modifyAt]
  · exact matches_tag_setType _ _
  · exact matches_tag_classListRemove _ _
  · exact matches_tag_classListAdd _ _

theorem fieldOf_written (doc : Element) (input icon el : Path) (t r a : String)
    (hr : "input-group" ≠ r) (ha : "input-group" ≠ a) :
    fieldOf (written doc input icon t r a) el = fieldOf doc el := by
  unfold fieldOf
  rw [closest_group_written doc input icon el t r a hr ha]
  congr 1
  funext g
  exact querySelector_tag_written doc input icon g t r a "input"

theorem indicatorOf_written (doc : Element) (input icon el : Path) (t r a : String) :
    indicatorOf (written doc input icon t r a) el = indicatorOf doc el :=
  querySelector_tag_written doc input icon el t r a "i"

theorem fieldOf_setType (doc : Element) (input el : Path) (t : String) :
    fieldOf (doc.modifyAt (setType t) input) el = fieldOf doc el := by
  unfold fieldOf
  rw [closest_modifyAt _ _ (matches_cls_setType _ _)]
  congr 1
  funext g
  exact querySelector_modifyAt _ _ (matches_tag_setType _ _) doc input g

theorem indicatorOf_setType (doc : Element) (input el : Path) (t : String) :
    indicatorOf (doc.modifyAt (setType t) input) el = indicatorOf doc el :=
  querySelector_modifyAt _ _ (matches_tag_setType _ _) doc input el

/-! ## What a successful lookup tells about the element found -/

theorem matchesAt_of_querySelector (doc : Element) (el q : Path) (sel : Selector)
    (h : querySelector doc el sel = some q) : matchesAt doc sel q = true := by
  unfold querySelector querySelectorAll at h
  have hm := List.mem_of_mem_head? (Option.mem_def.mpr h)
  cases hg : doc.get? el with
  | none => simp [hg] at hm
  | some e =>
    rw [hg] at hm
    exact (List.mem_filter.mp hm).2

theorem tagName_of_matchesAt (doc : Element) (q : Path) (t : String)
    (h : matchesAt doc (.tag t) q = true) : ∃ n, nodeAt doc q = some n ∧ n.tagName = t := by
  unfold matchesAt at h
  cases hn : nodeAt doc q with
  | none => simp [hn] at h
  | some n =>
    rw [hn] at h
    exact ⟨n, rfl, by simpa [Selector.matches] using h⟩

theorem node_of_fieldOf (doc : Element) (button input : Path)
    (h : fieldOf doc button = some input) :
    ∃ n, nodeAt doc input = some n ∧ n.tagName = "input" := by
  unfold fieldOf at h
  cases hg : closest doc button (.cls "input-group") with
  | none => simp [hg] at h
  | some g =>
    rw [hg] at h
    exact tagName_of_matchesAt doc input "input" (matchesAt_of_querySelector doc g input _ h)

theorem node_of_indicatorOf (doc : Element) (button icon : Path)
    (h : indicatorOf doc button = some icon) :
    ∃ n, nodeAt doc icon = some n ∧ n.tagName = "i" :=
  tagName_of_matchesAt doc icon "i" (matchesAt_of_querySelector doc button icon _ h)

/-- The Field and the Indicator of a trigger are different elements. -/
theorem field_ne_indicator (doc : Element) (a b input icon : Path)
    (hf : fieldOf doc a = some input) (hi : indicatorOf doc b = some icon) : input ≠ icon := by
  obtain ⟨n, hn, ht⟩ := node_of_fieldOf doc a input hf
  obtain ⟨m, hm, hu⟩ := node_of_indicatorOf doc b icon hi
  rintro rfl
  rw [hn] at hm
  cases hm
  rw [ht] at hu
  exact absurd hu (by decide)

/-! ## Observations after the writes -/

theorem mem_tokensRemove (c r : String) (l : List String) :
    c ∈ tokensRemove r l ↔ c ∈ l ∧ c ≠ r := by
  simp [tokensRemove]

theorem mem_tokensAdd (c a : String) (l : List String) :
    c ∈ tokensAdd a l ↔ c = a ∨ c ∈ l := by
  unfold tokensAdd
  by_cases h : a ∈ l
  · simp only [h, if_true]
    constructor
    · exact Or.inr
    · rintro (rfl | h') <;> assumption
  · simp only [h, if_false, List.mem_append, List.mem_singleton]
    exact or_comm

theorem typeAt_written (doc : Element) (input icon q : Path) (t r a : String) :
    typeAt (written doc input icon t r a) q =
      if q = input then (typeAt doc q).map (fun _ => t) else typeAt doc q := by
  unfold typeAt
  rw [nodeAt_written]
  by_cases h1 : q = icon
  · subst h1
    by_cases h2 : q = input
    · subst h2
      cases h : nodeAt doc q <;> simp [setType, classListAdd, classListRemove]
    · cases h : nodeAt doc q <;> simp [h2, setType, classListAdd, classListRemove]
  · by_cases h2 : q = input
    · subst h2
      cases h : nodeAt doc q <;> simp [h1, setType, classListAdd, classListRemove]
    · cases h : nodeAt doc q <;> simp [h1, h2]

theorem classListAt_written (doc : Element) (input icon q : Path) (t r a : String) :
    classListAt (written doc input icon t r a) q =
      if q = icon then (classListAt doc q).map (fun l => tokensAdd a (tokensRemove r l))
      else classListAt doc q := by
  unfold classListAt
  rw [nodeAt_written]
  by_cases h1 : q = icon
  · subst h1
    by_cases h2 : q = input
    · subst h2
      cases h : nodeAt doc q <;> simp [setType, classListAdd, classListRemove]
    · cases h : nodeAt doc q <;> simp [h2, setType, classListAdd, classListRemove]
  · by_cases h2 : q = input
    · subst h2
      cases h : nodeAt doc q <;> simp [h1, setType, classListAdd, classListRemove]
    · cases h : nodeAt doc q <;> simp [h1, h2]

theorem hasClass_iff (doc : Element) (q : Path) (c : String) :
    hasClass doc q c = true ↔ ∃ l, classListAt doc q = some l ∧ c ∈ l := by
  unfold hasClass matchesAt classListAt
  cases h : nodeAt doc q <;> simp [Selector.matches]

theorem typeAt_of_fieldOf (doc : Element) (button input : Path)
    (h : fieldOf doc button = some input) : ∃ t, typeAt doc input = some t := by
  obtain ⟨n, hn, _⟩ := node_of_fieldOf doc button input h
  exact ⟨n.type, by simp [typeAt, hn]⟩

theorem classListAt_of_indicatorOf (doc : Element) (button icon : Path)
    (h : indicatorOf doc button = some icon) : ∃ l, classListAt doc icon = some l := by
  obtain ⟨n, hn, _⟩ := node_of_indicatorOf doc button icon h
  exact ⟨n.classList, by simp [classListAt, hn]⟩


/-! ## One click and the next -/

theorem hasClass_of_classListAt (doc : Element) (q : Path) (c : String) (l : List String)
    (h : classListAt doc q = some l) : hasClass doc q c = decide (c ∈ l) := by
  unfold hasClass matchesAt
  unfold classListAt at h
  cases hn : nodeAt doc q with
  | none => simp [hn] at h
  | some n =>
    rw [hn] at h
    simp only [Option.map_some', Option.some.injEq] at h
    simp [Selector.matches, h]

/-- Lookups give the same elements after a call, however the call ends. -/
theorem resolution_after_toggle (s : Page) (button el : Path) :
    fieldOf (togglePasswordVisibility s button).1.document el = fieldOf s.document el ∧
    indicatorOf (togglePasswordVisibility s button).1.document el = indicatorOf s.document el := by
  cases hf : fieldOf s.document button with
  | none =>
    obtain ⟨msg, hmsg⟩ := toggle_of_unresolved s button hf
    rw [hmsg]
    exact ⟨rfl, rfl⟩
  | some input =>
    cases hi : indicatorOf s.document button with
    | none =>
      rw [toggle_of_no_icon s button input hf hi]
      exact ⟨fieldOf_setType _ _ _ _, indicatorOf_setType _ _ _ _⟩
    | some icon =>
      rw [toggle_of_resolved s button input icon hf hi]
      by_cases hp : typeAt s.document input = some "password"
      · simp only [hp, if_true]
        exact ⟨fieldOf_written _ _ _ _ _ _ _ (by decide) (by decide), indicatorOf_written _ _ _ _ _ _ _⟩
      · simp only [hp, if_false]
        exact ⟨fieldOf_written _ _ _ _ _ _ _ (by decide) (by decide), indicatorOf_written _ _ _ _ _ _ _⟩

/-- What one call with resolved Field and Indicator leaves behind. -/
theorem toggle_observe (s : Page) (button input icon : Path)
    (hf : fieldOf s.document button = some input)
    (hi : indicatorOf s.document button = some icon) :
    (togglePasswordVisibility s button).2 = Completion.returned ∧
    fieldOf (click s button).document button = some input ∧
    indicatorOf (click s button).document button = some icon ∧
    typeAt (click s button).document input =
      some (if typeAt s.document input = some "password" then "text" else "password") ∧
    classListAt (click s button).document icon =
      (classListAt s.document icon).map
        (if typeAt s.document input = some "password"
         then fun l => tokensAdd "fa-eye" (tokensRemove "fa-eye-slash" l)
         else fun l => tokensAdd "fa-eye-slash" (tokensRemove "fa-eye" l)) := by
  have hres := resolution_after_toggle s button button
  have hrun := toggle_of_resolved s button input icon hf hi
  obtain ⟨t, ht⟩ := typeAt_of_fieldOf s.document button input hf
  refine ⟨by rw [hrun], by rw [click, hres.1, hf], by rw [click, hres.2, hi], ?_, ?_⟩
  · rw [click, hrun]
    by_cases hp : typeAt s.document input = some "password"
    · simp [hp, typeAt_written]
    · simp only [if_neg hp]
      rw [typeAt_written, if_pos rfl, ht]
      rfl
  · rw [click, hrun]
    by_cases hp : typeAt s.document input = some "password" <;>
      simp [hp, classListAt_written]

theorem tokens_restore_iff (a r : String) (har : a ≠ r) (l : List String) :
    (∀ c, c ∈ tokensAdd r (tokensRemove a (tokensAdd a (tokensRemove r l))) ↔ c ∈ l) ↔
      (r ∈ l ∧ a ∉ l) := by
  simp only [mem_tokensAdd, mem_tokensRemove]
  constructor
  · intro h
    refine ⟨(h r).mp (Or.inl rfl), fun ha => ?_⟩
    rcases (h a).mpr ha with h1 | ⟨_, h2⟩
    · exact har h1
    · exact h2 rfl
  · rintro ⟨hr, ha⟩ c
    constructor
    · rintro (rfl | ⟨h1 | ⟨h2, _⟩, h3⟩)
      · exact hr
      · exact absurd h1 h3
      · exact h2
    · intro hc
      by_cases hcr : c = r
      · exact Or.inl hcr
      · refine Or.inr ⟨Or.inr ⟨hc, hcr⟩, ?_⟩
        rintro rfl
        exact ha hc

/-- After a call with resolved Field and Indicator the two agree. -/
theorem consistent_after_toggle (s : Page) (button input icon : Path)
    (hf : fieldOf s.document button = some input)
    (hi : indicatorOf s.document button = some icon) :
    Consistent (click s button).document input icon := by
  obtain ⟨_, _, _, hty, hcl⟩ := toggle_observe s button input icon hf hi
  obtain ⟨l, hl⟩ := classListAt_of_indicatorOf s.document button icon hi
  rw [hl] at hcl
  unfold Consistent
  by_cases hp : typeAt s.document input = some "password"
  · simp only [hp, if_true, Option.map_some'] at hty hcl
    right
    refine ⟨hty, ?_, ?_⟩
    · rw [hasClass_of_classListAt _ _ _ _ hcl]
      simp [mem_tokensAdd]
    · rw [hasClass_of_classListAt _ _ _ _ hcl]
      simp [mem_tokensAdd, mem_tokensRemove]
  · simp only [hp, if_false, Option.map_some'] at hty hcl
    left
    refine ⟨hty, ?_, ?_⟩
    · rw [hasClass_of_classListAt _ _ _ _ hcl]
      simp [mem_tokensAdd]
    · rw [hasClass_of_classListAt _ _ _ _ hcl]
      simp [mem_tokensAdd, mem_tokensRemove]

/-- Two calls restore type and class set exactly from a state where they agree. -/
theorem two_toggles_restore (s : Page) (button input icon : Path)
    (hf : fieldOf s.document button = some input)
    (hi : indicatorOf s.document button = some icon) :
    (typeAt (click (click s button) button).document input = typeAt s.document input ∧
      ∀ c, hasClass (click (click s button) button).document icon c =
        hasClass s.document icon c) ↔
    Consistent s.document input icon := by
  obtain ⟨_, hf1, hi1, hty1, hcl1⟩ := toggle_observe s button input icon hf hi
  obtain ⟨_, _, _, hty2, hcl2⟩ := toggle_observe (click s button) button input icon hf1 hi1
  obtain ⟨t, ht⟩ := typeAt_of_fieldOf s.document button input hf
  obtain ⟨l, hl⟩ := classListAt_of_indicatorOf s.document button icon hi
  rw [hty1, hcl1, hl] at hcl2
  rw [hty1] at hty2
  rw [hl] at hcl1
  have hcs : ∀ c, hasClass s.document icon c = decide (c ∈ l) :=
    fun c => hasClass_of_classListAt _ _ _ _ hl
  unfold Consistent
  rw [hty2, hcs, hcs]
  by_cases hp : typeAt s.document input = some "password"
  · simp only [hp, if_true, Option.map_some'] at hcl2 ⊢
    have hne : ¬ (some "text" : Option String) = some "password" := by decide
    simp only [hne, if_false] at hcl2 ⊢
    have h2 : ∀ c, hasClass (click (click s button) button).document icon c =
        decide (c ∈ tokensAdd "fa-eye-slash"
          (tokensRemove "fa-eye" (tokensAdd "fa-eye" (tokensRemove "fa-eye-slash" l)))) :=
      fun c => hasClass_of_classListAt _ _ _ _ hcl2
    simp only [h2, hcs, decide_eq_decide,
      tokens_restore_iff "fa-eye" "fa-eye-slash" (by decide) l]
    simp
  · simp only [hp, if_false, Option.map_some'] at hcl2 ⊢
    simp only [if_true] at hcl2 ⊢
    have h2 : ∀ c, hasClass (click (click s button) button).document icon c =
        decide (c ∈ tokensAdd "fa-eye"
          (tokensRemove "fa-eye-slash" (tokensAdd "fa-eye-slash" (tokensRemove "fa-eye" l)))) :=
      fun c => hasClass_of_classListAt _ _ _ _ hcl2
    simp only [h2, hcs, decide_eq_decide,
      tokens_restore_iff "fa-eye-slash" "fa-eye" (by decide) l]
    rw [ht] at hp ⊢
    simp [eq_comm]


/-! ## What a call can change -/

/-- The document after a call is the old one, or the old one with the type of
the Field written, or the old one with the three writes of a branch. -/
theorem toggle_document_cases (s : Page) (button : Path) :
    ((togglePasswordVisibility s button).1.document = s.document ∧
      fieldOf s.document button = none) ∨
    (∃ input t, fieldOf s.document button = some input ∧
      indicatorOf s.document button = none ∧
      (togglePasswordVisibility s button).1.document =
        s.document.modifyAt (setType t) input) ∨
    (∃ input icon t r a, fieldOf s.document button = some input ∧
      indicatorOf s.document button = some icon ∧
      (r = "fa-eye" ∨ r = "fa-eye-slash") ∧ (a = "fa-eye" ∨ a = "fa-eye-slash") ∧
      (togglePasswordVisibility s button).1.document = written s.document input icon t r a) := by
  cases hf : fieldOf s.document button with
  | none =>
    obtain ⟨msg, hmsg⟩ := toggle_of_unresolved s button hf
    left
    rw [hmsg]
    exact ⟨rfl, rfl⟩
  | some input =>
    cases hi : indicatorOf s.document button with
    | none =>
      right; left
      exact ⟨input, _, rfl, rfl, by rw [toggle_of_no_icon s button input hf hi]⟩
    | some icon =>
      right; right
      by_cases hp : typeAt s.document input = some "password"
      · refine ⟨input, icon, "text", "fa-eye-slash", "fa-eye", rfl, rfl, Or.inr rfl, Or.inl rfl, ?_⟩
        rw [toggle_of_resolved s button input icon hf hi]
        simp only [hp, if_true]
      · refine ⟨input, icon, "password", "fa-eye", "fa-eye-slash", rfl, rfl, Or.inl rfl,
          Or.inr rfl, ?_⟩
        rw [toggle_of_resolved s button input icon hf hi]
        simp only [hp, if_false]

theorem toggle_listeners (s : Page) (button : Path) :
    (togglePasswordVisibility s button).1.listeners = s.listeners := by
  cases hf : fieldOf s.document button with
  | none =>
    obtain ⟨msg, hmsg⟩ := toggle_of_unresolved s button hf
    rw [hmsg]
    rfl
  | some input =>
    cases hi : indicatorOf s.document button with
    | none => rw [toggle_of_no_icon s button input hf hi]
    | some icon => rw [toggle_of_resolved s button input icon hf hi]

/-- An element that is neither the Field nor the Indicator of the trigger keeps
its node data through a call. -/
theorem nodeAt_after_toggle (s : Page) (button q : Path)
    (hf : fieldOf s.document button ≠ some q) (hi : indicatorOf s.document button ≠ some q) :
    nodeAt (togglePasswordVisibility s button).1.document q = nodeAt s.document q := by
  rcases toggle_document_cases s button with ⟨h, _⟩ | ⟨input, t, hf', _, h⟩ |
      ⟨input, icon, t, r, a, hf', hi', _, _, h⟩
  · rw [h]
  · rw [h, nodeAt_modifyAt]
    have hq : q ≠ input := fun e => hf (e ▸ hf')
    simp [hq]
  · rw [h, nodeAt_written]
    have hq : q ≠ input := fun e => hf (e ▸ hf')
    have hq2 : q ≠ icon := fun e => hi (e ▸ hi')
    cases hn : nodeAt s.document q <;> simp [hq, hq2]

theorem filter_tokensRemove (p : String → Bool) (r : String) (hr : p r = false)
    (l : List String) : (tokensRemove r l).filter p = l.filter p := by
  unfold tokensRemove
  rw [List.filter_filter]
  apply List.filter_congr
  intro c _
  by_cases hc : c = r
  · subst hc
    simp [hr]
  · simp [hc]

theorem filter_tokensAdd (p : String → Bool) (a : String) (ha : p a = false)
    (l : List String) : (tokensAdd a l).filter p = l.filter p := by
  unfold tokensAdd
  split
  · rfl
  · simp [List.filter_append, ha]


theorem click_console_of_resolved (s : Page) (button input icon : Path)
    (hf : fieldOf s.document button = some input)
    (hi : indicatorOf s.document button = some icon) :
    (click s button).console = s.console ∧ (click s button).listeners = s.listeners := by
  rw [click, toggle_of_resolved s button input icon hf hi]
  exact ⟨rfl, rfl⟩

/-- A resolved call rewrites the Field's node only in its type. -/
theorem nodeAt_field_after_click (s : Page) (button input icon : Path)
    (hf : fieldOf s.document button = some input)
    (hi : indicatorOf s.document button = some icon) :
    ∃ t, nodeAt (click s button).document input = (nodeAt s.document input).map (setType t) := by
  have hne := field_ne_indicator s.document button button input icon hf hi
  rw [click, toggle_of_resolved s button input icon hf hi]
  by_cases hp : typeAt s.document input = some "password"
  · refine ⟨"text", ?_⟩
    simp only [hp, if_true]
    rw [nodeAt_written]
    cases hn : nodeAt s.document input <;> simp [hne]
  · refine ⟨"password", ?_⟩
    simp only [hp, if_false]
    rw [nodeAt_written]
    cases hn : nodeAt s.document input <;> simp [hne]


/-- A projection of the node data that none of the three writes touches is the
same after them. -/
theorem map_nodeAt_written {α : Type} (g : Node → α) (doc : Element) (input icon q : Path)
    (t r a : String) (hs : ∀ n, g (setType t n) = g n)
    (hr : ∀ n, g (classListRemove r n) = g n) (ha : ∀ n, g (classListAdd a n) = g n) :
    (nodeAt (written doc input icon t r a) q).map g = (nodeAt doc q).map g := by
  rw [nodeAt_written]
  cases hn : nodeAt doc q with
  | none => rfl
  | some n =>
    simp only [Option.map_some', Option.some.injEq]
    split_ifs <;> simp [hs, hr, ha]


/-! ## Triggers in separate groups -/

theorem closest_isPrefix (doc : Element) (el g : Path) (sel : Selector)
    (h : closest doc el sel = some g) : g <+: el := by
  unfold closest inclusiveAncestors at h
  have hm := List.mem_of_find?_eq_some h
  exact (List.mem_inits g el).mp (List.mem_reverse.mp hm)

theorem querySelector_isPrefix (doc : Element) (el q : Path) (sel : Selector)
    (h : querySelector doc el sel = some q) : el <+: q := by
  unfold querySelector querySelectorAll at h
  have hm := List.mem_of_mem_head? (Option.mem_def.mpr h)
  cases hg : doc.get? el with
  | none => simp [hg] at hm
  | some e =>
    rw [hg] at hm
    obtain ⟨r, _, hr⟩ := List.mem_map.mp (List.mem_filter.mp hm).1
    exact ⟨r, hr⟩

/-- Triggers whose `.input-group` containers are not nested in one another
resolve to different Fields and different Indicators. -/
theorem separate_groups_resolve_apart (doc : Element) (a b ga gb input icon : Path)
    (hga : closest doc a (.cls "input-group") = some ga)
    (hgb : closest doc b (.cls "input-group") = some gb)
    (hab : ¬ ga <+: gb) (hba : ¬ gb <+: ga)
    (hfb : fieldOf doc b = some input) (hib : indicatorOf doc b = some icon) :
    fieldOf doc a ≠ some input ∧ indicatorOf doc a ≠ some icon := by
  have hbi : gb <+: input := by
    unfold fieldOf at hfb
    rw [hgb] at hfb
    exact querySelector_isPrefix doc gb input _ hfb
  have hbc : gb <+: icon :=
    (closest_isPrefix doc b gb _ hgb).trans (querySelector_isPrefix doc b icon _ hib)
  constructor
  · intro hfa
    unfold fieldOf at hfa
    rw [hga] at hfa
    have hai : ga <+: input := querySelector_isPrefix doc ga input _ hfa
    rcases List.prefix_or_prefix_of_prefix hai hbi with h | h
    · exact hab h
    · exact hba h
  · intro hia
    have hac : ga <+: icon :=
      (closest_isPrefix doc a ga _ hga).trans (querySelector_isPrefix doc a icon _ hia)
    rcases List.prefix_or_prefix_of_prefix hac hbc with h | h
    · exact hab h
    · exact hba h

/-! ## The claims -/

/-- C1: when the enclosing `.input-group`, the Field and the Indicator of a
trigger all resolve, the call returns and performs exactly the three writes of
one branch: from type `password` the Field gets type `text` and the Indicator
loses `fa-eye-slash` and gains `fa-eye`; from any other type the Field gets
type `password` and the Indicator loses `fa-eye` and gains `fa-eye-slash`.
In particular, from type `password` with Indicator classes `fa-eye-slash` the
result is type `text` with Indicator classes exactly `fa-eye`. -/
theorem toggle_flips_field_and_indicator (s : Page) (button input icon : Path)
    (hf : fieldOf s.document button = some input)
    (hi : indicatorOf s.document button = some icon) :
    togglePasswordVisibility s button =
      ({ s with document :=
          if typeAt s.document input = some "password"
          then written s.document input icon "text" "fa-eye-slash" "fa-eye"
          else written s.document input icon "password" "fa-eye" "fa-eye-slash" },
        Completion.returned) ∧
    typeAt (togglePasswordVisibility s button).1.document input =
      some (if typeAt s.document input = some "password" then "text" else "password") ∧
    classListAt (togglePasswordVisibility s button).1.document icon =
      (classListAt s.document icon).map
        (if typeAt s.document input = some "password"
         then fun l => tokensAdd "fa-eye" (tokensRemove "fa-eye-slash" l)
         else fun l => tokensAdd "fa-eye-slash" (tokensRemove "fa-eye" l)) ∧
    (typeAt s.document input = some "password" →
      classListAt s.document icon = some ["fa-eye-slash"] →
      typeAt (togglePasswordVisibility s button).1.document input = some "text" ∧
      classListAt (togglePasswordVisibility s button).1.document icon = some ["fa-eye"]) := by
  have hrun := toggle_of_resolved s button input icon hf hi
  obtain ⟨t, ht⟩ := typeAt_of_fieldOf s.document button input hf
  refine ⟨hrun, ?_, ?_, ?_⟩
  · rw [hrun]
    by_cases hp : typeAt s.document input = some "password"
    · simp [hp, typeAt_written]
    · simp only [if_neg hp]
      rw [typeAt_written, if_pos rfl, ht]
      rfl
  · rw [hrun]
    by_cases hp : typeAt s.document input = some "password" <;>
      simp [hp, classListAt_written]
  · intro hp hc
    rw [hrun]
    simp only [hp, if_true, typeAt_written, classListAt_written, hc, Option.map_some']
    exact ⟨trivial, by decide⟩

/-- Witness for C1 on the example page, whose Field is obscured and whose
Indicator bears only `fa-eye-slash`. -/
theorem toggle_flips_field_and_indicator_witness :
    fieldOf samplePage.document [1] = some [0] ∧
    indicatorOf samplePage.document [1] = some [1, 0] ∧
    typeAt samplePage.document [0] = some "password" ∧
    classListAt samplePage.document [1, 0] = some ["fa-eye-slash"] ∧
    typeAt (togglePasswordVisibility samplePage [1]).1.document [0] = some "text" ∧
    classListAt (togglePasswordVisibility samplePage [1]).1.document [1, 0] = some ["fa-eye"] :=
  ⟨by decide, by decide, by decide, by decide,
    (toggle_flips_field_and_indicator samplePage [1] [0] [1, 0] (by decide) (by decide)).2.2.2
      (by decide) (by decide)⟩

/-- C2: whenever a call returns and the trigger has a Field, the trigger also
has an Indicator, both are still what the trigger resolves to afterwards, and
they agree: the Field's type is `password` exactly when the Indicator bears
`fa-eye-slash`, and `text` exactly when it bears `fa-eye`. -/
theorem mode_matches_indicator_after_click (s : Page) (button input : Path)
    (hf : fieldOf s.document button = some input)
    (hdone : (togglePasswordVisibility s button).2 = Completion.returned) :
    ∃ icon, indicatorOf s.document button = some icon ∧
      fieldOf (click s button).document button = some input ∧
      indicatorOf (click s button).document button = some icon ∧
      (typeAt (click s button).document input = some "password" ↔
        hasClass (click s button).document icon "fa-eye-slash" = true) ∧
      (typeAt (click s button).document input = some "text" ↔
        hasClass (click s button).document icon "fa-eye" = true) := by
  cases hi : indicatorOf s.document button with
  | none =>
    rw [toggle_of_no_icon s button input hf hi] at hdone
    cases hdone
  | some icon =>
    obtain ⟨_, hf1, hi1, _, _⟩ := toggle_observe s button input icon hf hi
    refine ⟨icon, rfl, hf1, hi1, ?_⟩
    rcases consistent_after_toggle s button input icon hf hi with ⟨ht, h1, h2⟩ | ⟨ht, h1, h2⟩
    · rw [ht, h1, h2]
      exact ⟨by simp, by decide⟩
    · rw [ht, h1, h2]
      exact ⟨by decide, by simp⟩

/-- Witness for C2 on the example page. -/
theorem mode_matches_indicator_after_click_witness :
    fieldOf samplePage.document [1] = some [0] ∧
    (togglePasswordVisibility samplePage [1]).2 = Completion.returned ∧
    ∃ icon, indicatorOf samplePage.document [1] = some icon ∧
      fieldOf (click samplePage [1]).document [1] = some [0] ∧
      indicatorOf (click samplePage [1]).document [1] = some icon ∧
      (typeAt (click samplePage [1]).document [0] = some "password" ↔
        hasClass (click samplePage [1]).document icon "fa-eye-slash" = true) ∧
      (typeAt (click samplePage [1]).document [0] = some "text" ↔
        hasClass (click samplePage [1]).document icon "fa-eye" = true) :=
  ⟨by decide, by decide,
    mode_matches_indicator_after_click samplePage [1] [0] (by decide) (by decide)⟩

/-- C3 fails as stated: on a page whose Field is obscured while the Indicator
bears `fa-eye`, two clicks leave the Indicator with `fa-eye-slash` instead. -/
theorem involution_fails_from_mismatched_state :
    ¬ (∀ (s : Page) (button input icon : Path),
        fieldOf s.document button = some input →
        indicatorOf s.document button = some icon →
        typeAt (click (click s button) button).document input = typeAt s.document input ∧
        ∀ c, hasClass (click (click s button) button).document icon c =
          hasClass s.document icon c) := by
  intro h
  have h2 := (h mismatchedPage [1] [0] [1, 0] (by decide) (by decide)).2 "fa-eye"
  revert h2
  decide

/-- C3, amended: for a trigger whose Field and Indicator resolve, two
consecutive calls both return, and they bring the Field's type and the
Indicator's class set back to their original values exactly when the two
agreed at the start (type `password` with `fa-eye-slash` and without `fa-eye`,
or type `text` with `fa-eye` and without `fa-eye-slash`). -/
theorem two_clicks_restore_iff_consistent (s : Page) (button input icon : Path)
    (hf : fieldOf s.document button = some input)
    (hi : indicatorOf s.document button = some icon) :
    (togglePasswordVisibility s button).2 = Completion.returned ∧
    (togglePasswordVisibility (click s button) button).2 = Completion.returned ∧
    ((typeAt (click (click s button) button).document input = typeAt s.document input ∧
        ∀ c, hasClass (click (click s button) button).document icon c =
          hasClass s.document icon c) ↔
      Consistent s.document input icon) := by
  obtain ⟨hr1, hf1, hi1, _, _⟩ := toggle_observe s button input icon hf hi
  obtain ⟨hr2, _, _, _, _⟩ := toggle_observe (click s button) button input icon hf1 hi1
  exact ⟨hr1, hr2, two_toggles_restore s button input icon hf hi⟩

/-- Witness for C3 (amended): the example page starts consistent, so two clicks
restore the Field's type and the Indicator's classes. -/
theorem two_clicks_restore_iff_consistent_witness :
    fieldOf samplePage.document [1] = some [0] ∧
    indicatorOf samplePage.document [1] = some [1, 0] ∧
    Consistent samplePage.document [0] [1, 0] ∧
    typeAt (click (click samplePage [1]) [1]).document [0] = typeAt samplePage.document [0] ∧
    ∀ c, hasClass (click (click samplePage [1]) [1]).document [1, 0] c =
      hasClass samplePage.document [1, 0] c :=
  have hc : Consistent samplePage.document [0] [1, 0] := Or.inl (by decide)
  ⟨by decide, by decide, hc,
    (two_clicks_restore_iff_consistent samplePage [1] [0] [1, 0]
      (by decide) (by decide)).2.2.mpr hc⟩

/-- C4: when the trigger has no enclosing `.input-group`, or that group holds no
`input`, the call logs one diagnostic and returns; the document (every Field
type, every class list) and the listeners are what they were. -/
theorem unresolved_click_changes_nothing (s : Page) (button : Path)
    (h : closest s.document button (.cls "input-group") = none ∨
      ∃ g, closest s.document button (.cls "input-group") = some g ∧
        querySelector s.document g (.tag "input") = none) :
    (togglePasswordVisibility s button).2 = Completion.returned ∧
    (togglePasswordVisibility s button).1.document = s.document ∧
    (togglePasswordVisibility s button).1.listeners = s.listeners ∧
    ((closest s.document button (.cls "input-group") = none ∧
        (togglePasswordVisibility s button).1.console =
          s.console ++ ["Password toggle button is not inside an .input-group"]) ∨
      (closest s.document button (.cls "input-group") ≠ none ∧
        (togglePasswordVisibility s button).1.console =
          s.console ++ ["No input field found inside the .input-group"])) := by
  unfold togglePasswordVisibility
  rcases h with h | ⟨g, hg, hq⟩
  · simp [h, consoleError]
  · simp [hg, hq, consoleError]

/-- Witness for C4: a button outside any `.input-group`. -/
theorem unresolved_click_changes_nothing_witness :
    closest noGroupPage.document [1] (.cls "input-group") = none ∧
    (togglePasswordVisibility noGroupPage [1]).2 = Completion.returned ∧
    (togglePasswordVisibility noGroupPage [1]).1.document = noGroupPage.document ∧
    (togglePasswordVisibility noGroupPage [1]).1.console =
      ["Password toggle button is not inside an .input-group"] :=
  have h : closest noGroupPage.document [1] (.cls "input-group") = none := by decide
  have w := unresolved_click_changes_nothing noGroupPage [1] (Or.inl h)
  ⟨h, w.1, w.2.1, by
    rcases w.2.2.2 with ⟨_, hc⟩ | ⟨hne, _⟩
    · exact hc
    · exact absurd h hne⟩

/-- C5: on a page whose button holds no `i` element while its `.input-group`
and Field resolve, the call ends by raising the `TypeError` of `icon.classList`. -/
theorem click_without_icon_raises :
    closest noIconPage.document [1] (.cls "input-group") = some [] ∧
    fieldOf noIconPage.document [1] = some [0] ∧
    indicatorOf noIconPage.document [1] = none ∧
    (togglePasswordVisibility noIconPage [1]).2 = Completion.threw nullClassListError := by
  decide

/-- C7: on the same page the call that raises has already written the Field's
type (`password` became `text`), while no class list of the document changed. -/
theorem click_without_icon_flips_field_only :
    (togglePasswordVisibility noIconPage [1]).2 ≠ Completion.returned ∧
    typeAt noIconPage.document [0] = some "password" ∧
    typeAt (togglePasswordVisibility noIconPage [1]).1.document [0] = some "text" ∧
    ∀ q ∈ ([] : Path) :: noIconPage.document.descendants,
      classListAt (togglePasswordVisibility noIconPage [1]).1.document q =
        classListAt noIconPage.document q := by
  decide

/-- C6 fails as stated: two buttons inside one `.input-group` resolve to the
same Field, so a click on the first changes the type of the Field of the second. -/
theorem click_changes_field_of_other_trigger :
    ¬ (∀ (s : Page) (a b input icon : Path), a ≠ b →
        hasClass s.document a "js-password-toggle" = true →
        hasClass s.document b "js-password-toggle" = true →
        fieldOf s.document b = some input →
        indicatorOf s.document b = some icon →
        typeAt (click s a).document input = typeAt s.document input ∧
        classListAt (click s a).document icon = classListAt s.document icon) := by
  intro h
  have h2 := (h sharedGroupPage [1] [2] [0] [2, 0] (by decide) (by decide) (by decide)
    (by decide) (by decide)).1
  revert h2
  decide

/-- C6, amended: when trigger `b` resolves to a Field and an Indicator that are
not the Field and the Indicator trigger `a` resolves to, a call on `a` (however
it ends) leaves the node data of the Field and of the Indicator of `b` as they
were, and `b` resolves to the same two elements afterwards. -/
theorem click_leaves_other_trigger_alone (s : Page) (a b input icon : Path)
    (hfb : fieldOf s.document b = some input)
    (hib : indicatorOf s.document b = some icon)
    (hfa : fieldOf s.document a ≠ some input)
    (hia : indicatorOf s.document a ≠ some icon) :
    a ≠ b ∧
    nodeAt (togglePasswordVisibility s a).1.document input = nodeAt s.document input ∧
    nodeAt (togglePasswordVisibility s a).1.document icon = nodeAt s.document icon ∧
    fieldOf (togglePasswordVisibility s a).1.document b = some input ∧
    indicatorOf (togglePasswordVisibility s a).1.document b = some icon := by
  have hres := resolution_after_toggle s a b
  refine ⟨?_, ?_, ?_, by rw [hres.1, hfb], by rw [hres.2, hib]⟩
  · rintro rfl
    exact hfa hfb
  · apply nodeAt_after_toggle s a input hfa
    intro hc
    exact field_ne_indicator s.document b a input input hfb hc rfl
  · apply nodeAt_after_toggle s a icon _ hia
    intro hc
    exact field_ne_indicator s.document a b icon icon hc hib rfl

/-- Witness for C6 (amended): two groups, each with its own input, button and
icon; a click on the first button leaves the second pair as it was. -/
theorem click_leaves_other_trigger_alone_witness :
    fieldOf twoGroupsPage.document [1, 1] = some [1, 0] ∧
    indicatorOf twoGroupsPage.document [1, 1] = some [1, 1, 0] ∧
    fieldOf twoGroupsPage.document [0, 1] = some [0, 0] ∧
    indicatorOf twoGroupsPage.document [0, 1] = some [0, 1, 0] ∧
    nodeAt (togglePasswordVisibility twoGroupsPage [0, 1]).1.document [1, 0] =
      nodeAt twoGroupsPage.document [1, 0] ∧
    nodeAt (togglePasswordVisibility twoGroupsPage [0, 1]).1.document [1, 1, 0] =
      nodeAt twoGroupsPage.document [1, 1, 0] :=
  have w := click_leaves_other_trigger_alone twoGroupsPage [0, 1] [1, 1] [1, 0] [1, 1, 0]
    (by decide) (by decide) (by decide) (by decide)
  ⟨by decide, by decide, by decide, by decide, w.2.1, w.2.2.1⟩

/-- C9: a call, however it ends, changes nothing in the document but the type
of the Field and the membership of `fa-eye` and `fa-eye-slash` in the class list
of the Indicator: the tree shape, every tag name and every other attribute stay,
a type differs only at the Field, a class list differs only at the Indicator and
there only in those two tokens, and any other element keeps all its node data.
The Field is never the Indicator, so its class list stays too.  The listeners
stay as well. -/
theorem toggle_changes_only_type_and_eye_classes (s : Page) (button q : Path) :
    (togglePasswordVisibility s button).1.document.descendants = s.document.descendants ∧
    (nodeAt (togglePasswordVisibility s button).1.document q).map Node.tagName =
      (nodeAt s.document q).map Node.tagName ∧
    (nodeAt (togglePasswordVisibility s button).1.document q).map Node.attributes =
      (nodeAt s.document q).map Node.attributes ∧
    (typeAt (togglePasswordVisibility s button).1.document q = typeAt s.document q ∨
      fieldOf s.document button = some q) ∧
    (classListAt (togglePasswordVisibility s button).1.document q = classListAt s.document q ∨
      indicatorOf s.document button = some q) ∧
    (classListAt (togglePasswordVisibility s button).1.document q).map
        (List.filter (fun c => decide (c ≠ "fa-eye" ∧ c ≠ "fa-eye-slash"))) =
      (classListAt s.document q).map
        (List.filter (fun c => decide (c ≠ "fa-eye" ∧ c ≠ "fa-eye-slash"))) ∧
    (nodeAt (togglePasswordVisibility s button).1.document q = nodeAt s.document q ∨
      fieldOf s.document button = some q ∨ indicatorOf s.document button = some q) ∧
    (fieldOf s.document button = none ∨
      fieldOf s.document button ≠ indicatorOf s.document button) ∧
    (togglePasswordVisibility s button).1.listeners = s.listeners := by
  refine ⟨?_, ?_, ?_, ?_, ?_, ?_, ?_, ?_, toggle_listeners s button⟩
  · rcases toggle_document_cases s button with ⟨h, _⟩ | ⟨input, t, _, _, h⟩ |
        ⟨input, icon, t, r, a, _, _, _, _, h⟩
    · rw [h]
    · rw [h, Element.descendants_modifyAt]
    · rw [h, written, Element.descendants_modifyAt, Element.descendants_modifyAt,
        Element.descendants_modifyAt]
  · rcases toggle_document_cases s button with ⟨h, _⟩ | ⟨input, t, _, _, h⟩ |
        ⟨input, icon, t, r, a, _, _, _, _, h⟩
    · rw [h]
    · rw [h, nodeAt_modifyAt]
      by_cases hq : q = input <;> cases hn : nodeAt s.document q <;> simp [hq, setType]
    · rw [h]
      exact map_nodeAt_written _ _ _ _ _ _ _ _ (fun _ => rfl) (fun _ => rfl) (fun _ => rfl)
  · rcases toggle_document_cases s button with ⟨h, _⟩ | ⟨input, t, _, _, h⟩ |
        ⟨input, icon, t, r, a, _, _, _, _, h⟩
    · rw [h]
    · rw [h, nodeAt_modifyAt]
      by_cases hq : q = input <;> cases hn : nodeAt s.document q <;> simp [hq, setType]
    · rw [h]
      exact map_nodeAt_written _ _ _ _ _ _ _ _ (fun _ => rfl) (fun _ => rfl) (fun _ => rfl)
  · rcases toggle_document_cases s button with ⟨h, _⟩ | ⟨input, t, hf, _, h⟩ |
        ⟨input, icon, t, r, a, hf, _, _, _, h⟩
    · rw [h]; exact Or.inl rfl
    · by_cases hq : q = input
      · exact Or.inr (hq ▸ hf)
      · left
        rw [h, typeAt, typeAt, nodeAt_modifyAt]
        simp [hq]
    · by_cases hq : q = input
      · exact Or.inr (hq ▸ hf)
      · left
        rw [h, typeAt_written]
        simp [hq]
  · rcases toggle_document_cases s button with ⟨h, _⟩ | ⟨input, t, _, _, h⟩ |
        ⟨input, icon, t, r, a, _, hi, _, _, h⟩
    · rw [h]; exact Or.inl rfl
    · left
      rw [h, classListAt, classListAt, nodeAt_modifyAt]
      by_cases hq : q = input <;> cases hn : nodeAt s.document q <;> simp [hq, setType]
    · by_cases hq : q = icon
      · exact Or.inr (hq ▸ hi)
      · left
        rw [h, classListAt_written]
        simp [hq]
  · rcases toggle_document_cases s button with ⟨h, _⟩ | ⟨input, t, _, _, h⟩ |
        ⟨input, icon, t, r, a, _, _, hr, ha, h⟩
    · rw [h]
    · rw [h, classListAt, classListAt, nodeAt_modifyAt]
      by_cases hq : q = input <;> cases hn : nodeAt s.document q <;> simp [hq, setType]
    · rw [h, classListAt_written]
      by_cases hq : q = icon
      · simp only [hq, if_true]
        cases hl : classListAt s.document icon with
        | none => rfl
        | some l =>
          simp only [Option.map_some', Option.some.injEq]
          rw [filter_tokensAdd, filter_tokensRemove]
          · rcases hr with rfl | rfl <;> simp
          · rcases ha with rfl | rfl <;> simp
      · simp [hq]
  · by_cases hf : fieldOf s.document button = some q
    · exact Or.inr (Or.inl hf)
    · by_cases hi : indicatorOf s.document button = some q
      · exact Or.inr (Or.inr hi)
      · exact Or.inl (nodeAt_after_toggle s button q hf hi)
  · cases hf : fieldOf s.document button with
    | none => exact Or.inl rfl
    | some input =>
      right
      intro hi
      exact field_ne_indicator s.document button button input input hf hi.symm rfl

/-- C10: for a trigger whose Field and Indicator resolve, whatever the Field's
type and the Indicator's classes at the start, three consecutive calls all
return and end in the state the first call reached: the same Field type, the
same Indicator class set, the same node data at every other element, the same
console and listeners. -/
theorem third_click_restores_first (s : Page) (button input icon : Path)
    (hf : fieldOf s.document button = some input)
    (hi : indicatorOf s.document button = some icon) :
    (togglePasswordVisibility s button).2 = Completion.returned ∧
    (togglePasswordVisibility (click s button) button).2 = Completion.returned ∧
    (togglePasswordVisibility (click (click s button) button) button).2 =
      Completion.returned ∧
    typeAt (click (click (click s button) button) button).document input =
      typeAt (click s button).document input ∧
    (∀ c, hasClass (click (click (click s button) button) button).document icon c =
      hasClass (click s button).document icon c) ∧
    (∀ q, q = icon ∨
      nodeAt (click (click (click s button) button) button).document q =
        nodeAt (click s button).document q) ∧
    (click (click (click s button) button) button).console = (click s button).console ∧
    (click (click (click s button) button) button).listeners =
      (click s button).listeners := by
  obtain ⟨hr1, hf1, hi1, _, _⟩ := toggle_observe s button input icon hf hi
  obtain ⟨hr2, hf2, hi2, _, _⟩ := toggle_observe (click s button) button input icon hf1 hi1
  obtain ⟨hr3, _, _, _, _⟩ :=
    toggle_observe (click (click s button) button) button input icon hf2 hi2
  have hcons := consistent_after_toggle s button input icon hf hi
  obtain ⟨hty, hcl⟩ := (two_toggles_restore (click s button) button input icon hf1 hi1).mpr hcons
  have hc2 := click_console_of_resolved (click s button) button input icon hf1 hi1
  have hc3 := click_console_of_resolved (click (click s button) button) button input icon hf2 hi2
  refine ⟨hr1, hr2, hr3, hty, hcl, ?_, by rw [hc3.1, hc2.1], by rw [hc3.2, hc2.2]⟩
  intro q
  by_cases hqi : q = icon
  · exact Or.inl hqi
  · right
    by_cases hqf : q = input
    · subst hqf
      obtain ⟨t2, h2⟩ := nodeAt_field_after_click (click s button) button q icon hf1 hi1
      obtain ⟨t3, h3⟩ :=
        nodeAt_field_after_click (click (click s button) button) button q icon hf2 hi2
      obtain ⟨n, hn, _⟩ := node_of_fieldOf (click s button).document button q hf1
      unfold typeAt at hty
      rw [h3, h2, hn] at hty ⊢
      simp only [Option.map_some', Option.some.injEq, setType] at hty ⊢
      cases n
      simp_all
    · have e3 := nodeAt_after_toggle (click (click s button) button) button q
        (by rw [hf2]; exact fun e => hqf (Option.some.inj e).symm)
        (by rw [hi2]; exact fun e => hqi (Option.some.inj e).symm)
      have e2 := nodeAt_after_toggle (click s button) button q
        (by rw [hf1]; exact fun e => hqf (Option.some.inj e).symm)
        (by rw [hi1]; exact fun e => hqi (Option.some.inj e).symm)
      exact e3.trans e2

/-- Witness for C10: a Field of type `email` whose Indicator bears both classes. -/
theorem third_click_restores_first_witness :
    fieldOf emailPage.document [1] = some [0] ∧
    indicatorOf emailPage.document [1] = some [1, 0] ∧
    typeAt emailPage.document [0] = some "email" ∧
    typeAt (click emailPage [1]).document [0] = some "password" ∧
    typeAt (click (click (click emailPage [1]) [1]) [1]).document [0] =
      typeAt (click emailPage [1]).document [0] ∧
    ∀ c, hasClass (click (click (click emailPage [1]) [1]) [1]).document [1, 0] c =
      hasClass (click emailPage [1]).document [1, 0] c :=
  have w := third_click_restores_first emailPage [1] [0] [1, 0] (by decide) (by decide)
  ⟨by decide, by decide, by decide, by decide, w.2.2.2.1, w.2.2.2.2.1⟩

/-! ## Enumeration of the document -/

theorem nil_not_mem_descendantsFrom :
    ∀ (cs : List Element) (k : Nat), ([] : Path) ∉ Element.descendantsFrom cs k
  | [], k => by simp [Element.descendantsFrom]
  | c :: cs, k => by
    simp only [Element.descendantsFrom]
    have ih := nil_not_mem_descendantsFrom cs (k + 1)
    simp [ih]

theorem nil_not_mem_descendants (e : Element) : ([] : Path) ∉ e.descendants := by
  cases e with
  | mk n cs =>
    simp only [Element.descendants]
    exact nil_not_mem_descendantsFrom cs 0

theorem count_map_cons (k j : Nat) (r : Path) (D : List Path) :
    (D.map (List.cons k)).count (j :: r) = if j = k then D.count r else 0 := by
  induction D with
  | nil => simp
  | cons d D ih =>
    simp only [List.map_cons, List.count_cons, ih]
    by_cases hjk : j = k
    · subst hjk
      simp
    · have : ¬ k = j := fun h => hjk h.symm
      simp [hjk, this]

theorem count_descendantsFrom (j : Nat) (r : Path) :
    ∀ (cs : List Element) (k : Nat),
      (Element.descendantsFrom cs k).count (j :: r) =
        if k ≤ j then
          match cs[j - k]? with
          | none => 0
          | some c => if r = [] then 1 else c.descendants.count r
        else 0
  | [], k => by simp [Element.descendantsFrom]
  | c :: cs, k => by
    simp only [Element.descendantsFrom, List.cons_append, List.count_append, List.count_cons,
      count_map_cons, count_descendantsFrom j r cs (k + 1)]
    rcases Nat.lt_trichotomy j k with hlt | heq | hgt
    · have h1 : ¬ k + 1 ≤ j := by omega
      have h2 : ¬ k ≤ j := by omega
      have h3 : ¬ j = k := by omega
      have h4 : ¬ k = j := by omega
      simp [h1, h2, h3, h4]
    · subst heq
      have h1 : ¬ j + 1 ≤ j := by omega
      by_cases hr : r = []
      · subst hr
        have h0 : c.descendants.count [] = 0 :=
          List.count_eq_zero.mpr (nil_not_mem_descendants c)
        simp [h1, h0]
      · have hr2 : ¬ [] = r := fun h => hr h.symm
        simp [h1, hr, hr2]
    · have h1 : k + 1 ≤ j := by omega
      have h2 : k ≤ j := by omega
      have h3 : ¬ j = k := by omega
      have h4 : ¬ k = j := by omega
      have h5 : j - k = (j - (k + 1)) + 1 := by omega
      simp [h1, h2, h3, h4, h5]

/-- Each proper descendant is listed exactly once, and nothing else is listed. -/
theorem count_descendants :
    ∀ (r : Path) (e : Element),
      e.descendants.count r = if r ≠ [] ∧ (e.get? r).isSome then 1 else 0
  | [], e => by
    simp [List.count_eq_zero.mpr (nil_not_mem_descendants e)]
  | j :: r, .mk n cs => by
    simp only [Element.descendants, count_descendantsFrom, Nat.zero_le, if_true, Nat.sub_zero,
      Element.get?_cons, Element.children_mk]
    cases hc : cs[j]? with
    | none => simp
    | some c =>
      simp only [Option.some_bind]
      by_cases hr : r = []
      · subst hr
        simp [Element.get?_nil]
      · rw [count_descendants r c]
        simp [hr]

theorem matchesAt_nil (n : Node) (cs : List Element) (sel : Selector) :
    matchesAt (.mk n cs) sel [] = sel.matches n := by
  simp [matchesAt, nodeAt, Element.get?_nil]

theorem matchesAt_cons (n : Node) (cs : List Element) (sel : Selector) (j : Nat) (r : Path) :
    matchesAt (.mk n cs) sel (j :: r) =
      match cs[j]? with
      | some c => matchesAt c sel r
      | none => false := by
  unfold matchesAt nodeAt
  rw [Element.get?_cons, Element.children_mk]
  cases hc : cs[j]? <;> simp

mutual
theorem countP_descendants (sel : Selector) :
    ∀ (e : Element) (m : Path → Bool), (∀ r, m r = matchesAt e sel r) →
      e.descendants.countP m = Element.countMatchingFrom sel e.children
  | .mk n cs, m, hm => by
    simp only [Element.descendants, Element.children_mk]
    apply countP_descendantsFrom sel cs 0 m
    intro j r
    rw [Nat.zero_add, hm, matchesAt_cons]
theorem countP_descendantsFrom (sel : Selector) :
    ∀ (cs : List Element) (k : Nat) (m : Path → Bool),
      (∀ j r, m ((k + j) :: r) =
        match cs[j]? with
        | some c => matchesAt c sel r
        | none => false) →
      (Element.descendantsFrom cs k).countP m = Element.countMatchingFrom sel cs
  | [], k, m, _ => by simp [Element.descendantsFrom, Element.countMatchingFrom]
  | .mk n cs' :: cs, k, m, hm => by
    have h0 : m [k] = sel.matches n := by
      have := hm 0 []
      simpa [matchesAt_nil] using this
    have h1 : (Element.mk n cs').descendants.countP (m ∘ List.cons k) =
        Element.countMatchingFrom sel cs' :=
      countP_descendants sel (.mk n cs') (m ∘ List.cons k) (fun r => by
        have := hm 0 r
        simpa using this)
    have h2 : (Element.descendantsFrom cs (k + 1)).countP m =
        Element.countMatchingFrom sel cs :=
      countP_descendantsFrom sel cs (k + 1) m (fun j r => by
        have := hm (j + 1) r
        simpa [Nat.add_assoc, Nat.add_comm 1 j] using this)
    simp only [Element.descendantsFrom, Element.countMatchingFrom, Element.countMatching,
      List.cons_append, List.countP_cons, List.countP_append, List.countP_map, h0, h1, h2]
    omega
end

/-- The elements matched in the whole document are as many as the tree holds. -/
theorem length_documentQuerySelectorAll (doc : Element) (sel : Selector) :
    (documentQuerySelectorAll doc sel).length = doc.countMatching sel := by
  unfold documentQuerySelectorAll
  rw [← List.countP_eq_length_filter, List.countP_cons,
    countP_descendants sel doc (matchesAt doc sel) (fun _ => rfl)]
  cases doc with
  | mk n cs =>
    simp only [matchesAt_nil, Element.children_mk, Element.countMatching]
    omega

/-- Each matching element of the document is listed once, no other is listed. -/
theorem count_documentQuerySelectorAll (doc : Element) (sel : Selector) (q : Path) :
    (documentQuerySelectorAll doc sel).count q = if matchesAt doc sel q = true then 1 else 0 := by
  unfold documentQuerySelectorAll
  by_cases hm : matchesAt doc sel q = true
  · rw [List.count_filter hm, List.count_cons, count_descendants, if_pos hm]
    have hsome : (doc.get? q).isSome = true := by
      unfold matchesAt nodeAt at hm
      cases hg : doc.get? q with
      | none => simp [hg] at hm
      | some e => rfl
    by_cases hq : q = []
    · subst hq
      simp
    · have hq2 : ¬ [] = q := fun h => hq h.symm
      simp [hq, hq2, hsome]
  · rw [if_neg hm]
    apply List.count_eq_zero.mpr
    intro hmem
    exact hm (List.mem_filter.mp hmem).2

theorem foldl_addEventListener (l : List Path) :
    ∀ (s : Page),
      l.foldl (fun st button => { st with listeners := st.listeners ++ [button] }) s =
        { s with listeners := s.listeners ++ l } := by
  induction l with
  | nil => intro s; simp
  | cons b l ih =>
    intro s
    rw [List.foldl_cons, ih]
    simp

/-- C8: the `DOMContentLoaded` handler returns and adds its listeners to exactly
the elements matched by `.js-password-toggle`, in document order: every element
bearing the class gets one more listener, every other path gets none, the number
of listeners added is the number of elements of the tree bearing the class, and
the document and the console are left as they were.  With no such element the
listeners are unchanged. -/
theorem init_binds_one_listener_per_trigger (s : Page) :
    (onDOMContentLoaded s).2 = Completion.returned ∧
    (onDOMContentLoaded s).1.listeners =
      s.listeners ++ documentQuerySelectorAll s.document (.cls "js-password-toggle") ∧
    (∀ q, (onDOMContentLoaded s).1.listeners.count q =
      s.listeners.count q + if hasClass s.document q "js-password-toggle" = true then 1 else 0) ∧
    (onDOMContentLoaded s).1.listeners.length =
      s.listeners.length + s.document.countMatching (.cls "js-password-toggle") ∧
    (s.document.countMatching (.cls "js-password-toggle") = 0 ↔
      (onDOMContentLoaded s).1.listeners = s.listeners) ∧
    (onDOMContentLoaded s).1.document = s.document ∧
    (onDOMContentLoaded s).1.console = s.console := by
  have hl : (onDOMContentLoaded s).1.listeners =
      s.listeners ++ documentQuerySelectorAll s.document (.cls "js-password-toggle") := by
    unfold onDOMContentLoaded
    simp only [foldl_addEventListener]
  have hd : (onDOMContentLoaded s).1.document = s.document := by
    unfold onDOMContentLoaded
    simp only [foldl_addEventListener]
  have hc : (onDOMContentLoaded s).1.console = s.console := by
    unfold onDOMContentLoaded
    simp only [foldl_addEventListener]
  refine ⟨rfl, hl, ?_, ?_, ?_, hd, hc⟩
  · intro q
    rw [hl, List.count_append, count_documentQuerySelectorAll]
    rfl
  · rw [hl, List.length_append, length_documentQuerySelectorAll]
  · rw [hl, ← length_documentQuerySelectorAll]
    constructor
    · intro h0
      rw [List.length_eq_zero.mp h0, List.append_nil]
    · intro h
      have := congrArg List.length h
      rw [List.length_append] at this
      omega

end PasswordToggle
